import Mathlib

/-!
Verification of the debug-metadata propagation engine in
`lib/DXIL/DxilUtilDbgInfoAndMisc.cpp`: the best-effort location resolver for
diagnostics (`EmitWarningOrErrorOnInstructionFollowPhiSelect`,
`EmitWarningOrErrorOnInstruction`), the debug-value record finder / relocator
(`FindDbgValueInst`, `MigrateDebugValue`), the vector debug-value scatterer
(`TryScatterDebugValueToVectorElements`) and the global-variable diagnostic
path (`EmitWarningOrErrorOnGlobalVariable`, `FindGlobalVariableDebugInfo`).

The instruction graph, metadata-use lists and debug-value records are embedded
shallowly: instructions are identified by natural numbers, a function body is a
list of instructions in program order, and the metadata indirection
(value → `LocalAsMetadata` → `MetadataAsValue` → users) is represented by the
per-value list of debug-value records using that value's wrapper, in use-list
order (most recently added first, as LLVM prepends new uses).
-/

namespace DxilDbg

/-- Severity of a diagnostic (`DiagnosticSeverity` restricted to the values
used by this file). -/
inductive Sev where
  | error
  | warning
  | note
deriving DecidableEq, Repr

/-- Per-instruction data used by the location resolver: the optional debug
location, whether the instruction is a phi node or a select, the list of
users that are instructions (in LLVM, every user of an instruction is an
instruction), and the containing function. -/
structure InstrInfo where
  loc : Option Nat
  phiSel : Bool
  users : List Nat
  func : Nat
deriving DecidableEq, Repr

/-- First hit of `f` over a list, modelling a C++ `for` loop whose body
returns on the first success (the user loop in
`EmitWarningOrErrorOnInstructionFollowPhiSelect`). -/
def firstSome (f : Nat → Option Nat) : List Nat → Option Nat
  | [] => none
  | u :: us =>
    match f u with
    | some j => some j
    | none => firstSome f us

/-- `EmitWarningOrErrorOnInstructionFollowPhiSelect`: if the depth budget is
exhausted (`depth > 4`) fail; if the instruction has a debug location it is
the diagnostic target (the C++ emits there and returns `true`; we return the
found instruction); otherwise recurse into users, but only for phi/select
instructions.  The recursion mirrors the C++ exactly, including the depth
counter that starts at 0 and is checked against 4. -/
def followPhiSelect (g : Nat → InstrInfo) (i : Nat) (depth : Nat) : Option Nat :=
  if h : depth > 4 then
    none
  else if (g i).loc.isSome then
    some i
  else if (g i).phiSel then
    firstSome (fun u => followPhiSelect g u (depth + 1)) (g i).users
  else
    none
termination_by 5 - depth
decreasing_by omega

/-- A node `j` is reachable from `i` in at most `n` user-hops. -/
def withinHops (g : Nat → InstrInfo) : Nat → Nat → Nat → Bool
  | 0, i, j => j == i
  | n + 1, i, j => j == i || (g i).users.any (fun u => withinHops g n u j)

/-- A diagnostic event handed to the sink: optional function, optional debug
location, message, severity (the payload of `DiagnosticInfoDxil` for the
instruction-scoped path). -/
structure Diag where
  dfunc : Option Nat
  dloc : Option Nat
  dmsg : Nat
  dsev : Sev
deriving DecidableEq, Repr

/-- `EmitWarningOrErrorOnInstruction`: if the instruction has no location and
is a phi/select, try the user walk; on success the diagnostic is emitted at
the found instruction (which has a location); otherwise the diagnostic is
emitted at the instruction's own (possibly absent) location. -/
def emitOnInstruction (g : Nat → InstrInfo) (i : Nat) (msg : Nat) (sev : Sev) : Diag :=
  let DL := (g i).loc
  if DL.isNone && (g i).phiSel then
    match followPhiSelect g i 0 with
    | some j => { dfunc := some (g j).func, dloc := (g j).loc, dmsg := msg, dsev := sev }
    | none => { dfunc := some (g i).func, dloc := DL, dmsg := msg, dsev := sev }
  else
    { dfunc := some (g i).func, dloc := DL, dmsg := msg, dsev := sev }

/-- What a value is defined as, as far as this file's code inspects it: the
result of an `insertelement` instruction (operand 0 the predecessor vector,
operand 1 the inserted element, operand 2 the constant index — note that an
`insertelement` result always has vector type, so `isa<InsertElementInst>`
already implies `isVectorTy`), some other instruction, or a non-instruction
value (constant, argument, global, undef). -/
inductive VKind where
  | insertElt (vecOp eltOp : Nat) (idx : Nat)
  | otherInst
  | nonInstr
deriving DecidableEq, Repr

/-- A `DIExpression` as inspected by the scatterer: either a bit-piece
`(offsetInBits, sizeInBits)` or anything else (including the absent
expression), which `TryScatterDebugValueToVectorElements` treats uniformly by
resetting `ParentBitPiece` to null. -/
inductive DIExpr where
  | plain
  | bitPiece (off sz : Nat)
deriving DecidableEq, Repr

/-- The payload of a `llvm.dbg.value` intrinsic: the tracked value (operand 0,
through the metadata wrapper), the source-variable descriptor, the expression
and the debug location. -/
structure DbgRec where
  tracked : Nat
  dvar : Nat
  expr : DIExpr
  loc : Nat
deriving DecidableEq, Repr

/-- An instruction in a function body: either an ordinary instruction defining
value `v` (its kind is looked up in `IRState.defs`), or a `llvm.dbg.value`
intrinsic carrying record id `r` (its payload is looked up in
`IRState.recs`). -/
inductive Instr where
  | inst (v : Nat)
  | dbgVal (r : Nat)
deriving DecidableEq, Repr

/-- The mutable state the debug-value operations read and write:
`defs` says what each value is; `body` is the instruction list in program
order; `recs` maps a record id to the payload of the corresponding
`llvm.dbg.value` intrinsic; `metaUsers v` is the list of debug-value records
using the `MetadataAsValue` wrapper of `v` (use-list order, newest first) —
an empty list covers both a missing wrapper and a wrapper with no dbg users;
`elemBits v` is the data-layout size in bits of the vector element type of
`v`; `nextRec` is the next fresh record id (all live ids are below it). -/
structure IRState where
  defs : Nat → VKind
  body : List Instr
  recs : Nat → Option DbgRec
  metaUsers : Nat → List Nat
  elemBits : Nat → Nat
  nextRec : Nat

/-- `FindDbgValueInst`: follow value → `LocalAsMetadata` → `MetadataAsValue`
and return the first `DbgValueInst` among that wrapper's users; `none` when
either wrapper does not exist or no user is a debug-value intrinsic. -/
def findDbgValueInst (S : IRState) (v : Nat) : Option Nat :=
  (S.metaUsers v).head?

/-- Whether a value is an instruction (`dyn_cast<Instruction>` succeeds). -/
def isInstrKind : VKind → Bool
  | .insertElt _ _ _ => true
  | .otherInst => true
  | .nonInstr => false

/-- Whether a value is an `insertelement` result (`isa<InsertElementInst>`). -/
def isInsert : VKind → Bool
  | .insertElt _ _ _ => true
  | .otherInst => false
  | .nonInstr => false

/-- `getNextNode` of the instruction defining `v`: the element following the
first occurrence of `Instr.inst v` in the body. -/
def nextOf : List Instr → Nat → Option Instr
  | [], _ => none
  | i :: rest, v => if i = Instr.inst v then rest.head? else nextOf rest v

/-- `removeFromParent` on the debug-value intrinsic with record id `r`. -/
def removeDbg (body : List Instr) (r : Nat) : List Instr :=
  body.filter (fun i => i ≠ Instr.dbgVal r)

/-- `insertAfter`: place the debug-value intrinsic with record id `r`
immediately after the (first occurrence of the) instruction defining `v`.
If `v`'s instruction is not in the list the body is unchanged (in LLVM this
situation is ill-formed: `insertAfter` requires an instruction with a
parent). -/
def insertAfterVal (body : List Instr) (v : Nat) (r : Nat) : List Instr :=
  match body with
  | [] => []
  | i :: rest =>
    if i = Instr.inst v then i :: Instr.dbgVal r :: rest
    else i :: insertAfterVal rest v r

/-- `MigrateDebugValue(Old, New)`: find the record bound to `Old` (no-op when
there is none); rebind its operand 0 to `New`'s wrapper — which removes the
use from `Old`'s wrapper's use list and prepends it to `New`'s — and, when
`New` is an instruction whose successor is not already the record, move the
record to immediately after `New`. -/
def migrateDebugValue (S : IRState) (old new : Nat) : IRState :=
  match findDbgValueInst S old with
  | none => S
  | some r =>
    match S.recs r with
    | none => S
    | some rec =>
      let S1 : IRState := { S with
        recs := fun r' => if r' = r then some { rec with tracked := new } else S.recs r',
        metaUsers := fun v =>
          let mu := if v = old then (S.metaUsers v).filter (fun x => x ≠ r)
                    else S.metaUsers v
          if v = new then r :: mu else mu }
      if isInstrKind (S.defs new) then
        if nextOf S1.body new = some (Instr.dbgVal r) then S1
        else { S1 with body := insertAfterVal (removeDbg S1.body r) new r }
      else S1

/-- Truncation to a C++ 32-bit `unsigned`: the scatterer stores `EltIdx`,
`ElemSizeInBits` and `OffsetInBits` in `unsigned` locals, so every cast into
them and every arithmetic result wraps modulo `2^32`. -/
def u32 (n : Nat) : Nat := n % 4294967296

/-- The `ParentBitPiece` computation of the scatterer: the record's expression
when it is a bit piece, dropped (null) otherwise. -/
def parentOf : DIExpr → Option (Nat × Nat)
  | .plain => none
  | .bitPiece off sz => some (off, sz)

/-- Modelled from the spec: `DIBuilder::insertDbgValueIntrinsic` (repository
code outside `src/`).  Per the spec, it materialises one new debug-value
record binding the element value, the given variable, the given bit-piece
expression and the given location, placed immediately after the insert-link
instruction `insVal`.  The new record's use of `eltOp`'s metadata wrapper is
prepended to the wrapper's use list. -/
def addRecord (S : IRState) (insVal eltOp off sz dvar loc : Nat) : IRState :=
  let r := S.nextRec
  { S with
    recs := fun r' =>
      if r' = r then some { tracked := eltOp, dvar := dvar, expr := DIExpr.bitPiece off sz, loc := loc }
      else S.recs r',
    metaUsers := fun v => if v = eltOp then r :: S.metaUsers v else S.metaUsers v,
    body := insertAfterVal S.body insVal r,
    nextRec := r + 1 }

/-- The `while (InsertElementInst *InsertElt = dyn_cast<InsertElementInst>(Val))`
loop of `TryScatterDebugValueToVectorElements`.  Each iteration reads the
inserted element and the constant index — `static_cast<unsigned>` truncates
the index to 32 bits — computes `OffsetInBits = EltIdx * ElemSizeInBits` in
`unsigned` arithmetic (wrapping modulo `2^32`), checks the nested-bit-piece
assertion (`OffsetInBits + ElemSizeInBits`, again an `unsigned` sum, widened
to `uint64_t` for the comparison against the parent's size), adds the parent
offset when a parent bit piece exists (`OffsetInBits +=` wraps back into the
`unsigned` local), emits one new per-element record, and steps to the
predecessor vector (operand 0).  `es` is the already-truncated
`ElemSizeInBits`.  `none` models a failed assertion (fatal in debug builds).
`fuel` is a bound on the chain length (the chain is acyclic in SSA form,
each link a distinct instruction of the body, so the caller's `body.length`
suffices). -/
def scatterLoop (es : Nat) (par : Option (Nat × Nat)) (dvar loc : Nat) :
    Nat → IRState → Nat → Option IRState
  | 0, S, _ => some S
  | fuel + 1, S, val =>
    match S.defs val with
    | .insertElt vecOp eltOp idx =>
      let off0 := u32 (u32 idx * es)
      match par with
      | some (poff, psz) =>
        if u32 (off0 + es) ≤ psz then
          scatterLoop es par dvar loc fuel
            (addRecord S val eltOp (u32 (off0 + poff)) es dvar loc) vecOp
        else none
      | none =>
        scatterLoop es par dvar loc fuel (addRecord S val eltOp off0 es dvar loc) vecOp
    | _ => some S

/-- `TryScatterDebugValueToVectorElements(Val)`: no-op unless `Val` is an
`insertelement` result (always vector-typed) carrying a debug-value record;
otherwise walk the construction chain emitting per-element records.  The
data-layout element size (a `uint64_t`) is truncated into the `unsigned`
local `ElemSizeInBits`.  The result is `none` exactly when the
nested-bit-piece bounds assertion fires. -/
def tryScatter (S : IRState) (val : Nat) : Option IRState :=
  match S.defs val with
  | .insertElt _ _ _ =>
    match findDbgValueInst S val with
    | none => some S
    | some r =>
      match S.recs r with
      | none => some S
      | some rec =>
        scatterLoop (u32 (S.elemBits val)) (parentOf rec.expr) rec.dvar rec.loc
          S.body.length S val
  | _ => some S

/-- Whether a body element is a `llvm.dbg.value` intrinsic. -/
def isDbgInstr : Instr → Bool
  | .inst _ => false
  | .dbgVal _ => true

/-- Number of debug-value intrinsics in a body. -/
def numDbg (body : List Instr) : Nat :=
  (body.filter isDbgInstr).length

/-- One link of a vector-construction chain: `res` is the `insertelement`
result, `elt` the inserted element value, `idx` the constant index. -/
structure Link where
  res : Nat
  elt : Nat
  idx : Nat
deriving DecidableEq, Repr

/-- The predecessor vector value of the remaining chain: the next link's
result, or the base value when no links remain. -/
def chainPred (ls : List Link) (base : Nat) : Nat :=
  match ls with
  | [] => base
  | l :: _ => l.res

/-- `v` heads a vector-construction chain with links `ls` ending at the
non-insert base value `base`, as read off the `defs` map: each link is an
`insertelement` of its element at its index into the predecessor. -/
def isChain (d : Nat → VKind) : Nat → List Link → Nat → Prop
  | v, [], base => v = base ∧ isInsert (d v) = false
  | v, l :: ls, base =>
    l.res = v ∧ d v = VKind.insertElt (chainPred ls base) l.elt l.idx ∧
      isChain d (chainPred ls base) ls base

/-- The raw per-element offset the loop computes for index `idx`: the index
truncated to `unsigned`, multiplied by the (already truncated) element size
in `unsigned` arithmetic — i.e. wrapping modulo `2^32`. -/
def offsetOfIdx (es idx : Nat) : Nat := u32 (u32 idx * es)

/-- The nested-bit-piece assertion holds on every link of the chain: vacuous
without a parent bit piece, and — exactly as the `unsigned` sum widened to
`uint64_t` is compared in the source — `u32 (offset + es) ≤ parent.size`
with one. -/
def assertOk (es : Nat) (par : Option (Nat × Nat)) (ls : List Link) : Prop :=
  ∀ l ∈ ls, match par with
    | some (_, psz) => u32 (offsetOfIdx es l.idx + es) ≤ psz
    | none => True

/-- The final offset of a per-element piece: the raw offset plus the parent's
base offset when a parent bit piece exists, wrapped back into the `unsigned`
local. -/
def pieceOff (par : Option (Nat × Nat)) (off0 : Nat) : Nat :=
  match par with
  | some (poff, _) => u32 (off0 + poff)
  | none => off0

/-- A module as seen by `EmitWarningOrErrorOnGlobalVariable`: whether it has
debug info, and the debug-info index — the global variables enumerated by the
`DebugInfoFinder` as `(descriptor, variable)` pairs. -/
structure GVModule where
  hasDbg : Bool
  index : List (Nat × Nat)
deriving DecidableEq, Repr

/-- A diagnostic from the global-variable path: the `DIGlobalVariable`
descriptor used as location context (or none), the message and severity. -/
structure GVDiag where
  dctx : Option Nat
  dmsg : Nat
  dsev : Sev
deriving DecidableEq, Repr

/-- `FindGlobalVariableDebugInfo`: `std::find_if` over the finder's global
variables for the first descriptor whose `getVariable()` is `gv`. -/
def findGlobalVariableDebugInfo (gv : Nat) (index : List (Nat × Nat)) : Option Nat :=
  (index.find? (fun e => e.2 = gv)).map (fun e => e.1)

/-- `EmitWarningOrErrorOnGlobalVariable`: only when the global is non-null and
its module has debug info is the debug-info index queried for a descriptor;
the diagnostic always goes out, with a null function and the (possibly null)
descriptor as location context. -/
def emitOnGlobalVariable (m : GVModule) (gv : Option Nat) (msg : Nat) (sev : Sev) : GVDiag :=
  let dIV : Option Nat :=
    match gv with
    | none => none
    | some g => if m.hasDbg then findGlobalVariableDebugInfo g m.index else none
  { dctx := dIV, dmsg := msg, dsev := sev }

/-! ## Helper lemmas for the location resolver -/

/-- A successful `firstSome` hit comes from some element of the list. -/
theorem firstSome_mem {f : Nat → Option Nat} :
    ∀ {us : List Nat} {j : Nat}, firstSome f us = some j → ∃ u ∈ us, f u = some j := by
  intro us
  induction us with
  | nil => intro j h; simp [firstSome] at h
  | cons u us ih =>
    intro j h
    rw [firstSome] at h
    cases hf : f u with
    | some b =>
      rw [hf] at h
      exact ⟨u, by simp, by rw [hf]; exact h⟩
    | none =>
      rw [hf] at h
      obtain ⟨u', hu', hj⟩ := ih h
      exact ⟨u', by simp [hu'], hj⟩

/-- Every node is within any hop budget of itself. -/
theorem withinHops_self (g : Nat → InstrInfo) : ∀ k i, withinHops g k i i = true := by
  intro k i
  cases k <;> simp [withinHops]

/-- The instruction found by the user walk starting at depth `d` lies within
`5 - d` user-hops of the start. -/
theorem follow_within (g : Nat → InstrInfo) :
    ∀ k i d j, 5 - d = k → followPhiSelect g i d = some j → withinHops g k i j = true := by
  intro k
  induction k with
  | zero =>
    intro i d j hk h
    rw [followPhiSelect] at h
    have hd : d > 4 := by omega
    simp [hd] at h
  | succ k ih =>
    intro i d j hk h
    have hd : ¬ d > 4 := by omega
    rw [followPhiSelect] at h
    rw [dif_neg hd] at h
    cases hloc : (g i).loc.isSome with
    | true =>
      rw [if_pos hloc] at h
      have : i = j := by simpa using h
      subst this
      exact withinHops_self g _ i
    | false =>
      rw [if_neg (by simp [hloc])] at h
      cases hps : (g i).phiSel with
      | true =>
        rw [if_pos (by simp [hps])] at h
        obtain ⟨u, hu, hfu⟩ := firstSome_mem h
        have hw : withinHops g k u j = true := ih u (d + 1) j (by omega) hfu
        simp only [withinHops, Bool.or_eq_true]
        right
        exact List.any_eq_true.2 ⟨u, hu, hw⟩
      | false =>
        rw [if_neg (by simp [hps])] at h
        exact absurd h (by simp)

/-! ## Claim theorems: location resolver -/

/-- C2: the location-resolution user walk terminates with a bounded radius:
any instruction it resolves to is within 5 user-hops of the starting
instruction (the walk, whose depth counter starts at 0, only ever examines
instructions while the counter is at most 4), and a call whose depth exceeds
4 — the budget exhausted — stops and fails immediately, on every instruction
graph, cyclic graphs through phi/select included (the model quantifies over
arbitrary `users` maps).  Termination itself is witnessed by
`followPhiSelect` being a total function. -/
theorem C2_depth_bound (g : Nat → InstrInfo) (i d j : Nat) :
    (followPhiSelect g i 0 = some j → withinHops g 5 i j = true) ∧
    (4 < d → followPhiSelect g i d = none) := by
  constructor
  · exact fun h => follow_within g 5 i 0 j rfl h
  · intro hd
    rw [followPhiSelect]
    simp [show d > 4 from hd]

/-- Concrete graph for the C2 witness: instruction 0 is a phi without a
location whose only user, instruction 1, has a location. -/
def g2 : Nat → InstrInfo := fun i =>
  if i = 0 then ⟨none, true, [1], 0⟩
  else if i = 1 then ⟨some 9, false, [], 0⟩
  else ⟨none, false, [], 0⟩

/-- Witness for C2 at the concrete graph `g2`: the resolved instruction 1 is
within 5 hops of instruction 0, and at depth 7 the walk fails. -/
theorem C2_depth_bound_witness :
    withinHops g2 5 0 1 = true ∧ followPhiSelect g2 0 7 = none := by
  refine ⟨(C2_depth_bound g2 0 7 1).1 ?_, (C2_depth_bound g2 0 7 1).2 (by omega)⟩
  rw [followPhiSelect]
  simp [g2]
  rw [firstSome]
  rw [followPhiSelect]
  simp [g2]

/-- C6: on an instruction with no debug location that is neither a phi nor a
select, `EmitWarningOrErrorOnInstruction` never enters the user walk (the
guard requires phi/select) and emits a location-less diagnostic on the
containing function, whatever the instruction's users are (`g` is
arbitrary, so in particular `(g i).users` is). -/
theorem C6_no_loc_non_phi_select (g : Nat → InstrInfo) (i msg : Nat) (sev : Sev)
    (hloc : (g i).loc = none) (hps : (g i).phiSel = false) :
    emitOnInstruction g i msg sev =
      { dfunc := some (g i).func, dloc := none, dmsg := msg, dsev := sev } := by
  unfold emitOnInstruction
  simp [hloc, hps]

/-- Concrete graph for the C6 witness: instruction 0 has no location, is not
a phi/select, and has users 5 and 6. -/
def g6 : Nat → InstrInfo := fun i =>
  if i = 0 then ⟨none, false, [5, 6], 3⟩
  else ⟨some 4, false, [], 3⟩

/-- Witness for C6 at the concrete graph `g6`. -/
theorem C6_no_loc_non_phi_select_witness :
    emitOnInstruction g6 0 42 Sev.error =
      { dfunc := some 3, dloc := none, dmsg := 42, dsev := Sev.error } :=
  C6_no_loc_non_phi_select g6 0 42 Sev.error rfl rfl

/-! ## Claim theorems: global-variable diagnostics -/

/-- C9: when the owning module has no debug information,
`EmitWarningOrErrorOnGlobalVariable` emits exactly one diagnostic with no
location context and cannot fail (it is a total function); the debug-info
index is never queried — the result is independent of `index`, which is
universally quantified. -/
theorem C9_emit_global_no_debug_info (index : List (Nat × Nat)) (gv msg : Nat) (sev : Sev) :
    emitOnGlobalVariable { hasDbg := false, index := index } (some gv) msg sev =
      { dctx := none, dmsg := msg, dsev := sev } := rfl

/-- C10: when the global-variable argument is null, a single location-less
diagnostic is still emitted, and the module — debug info, index and all — is
never consulted: the result is independent of the universally quantified
`m`, and the null global is never examined (the `none` branch is taken before
any dereference). -/
theorem C10_emit_global_null (m : GVModule) (msg : Nat) (sev : Sev) :
    emitOnGlobalVariable m none msg sev =
      { dctx := none, dmsg := msg, dsev := sev } := rfl

/-! ## Helper lemmas about instruction-list manipulation -/

/-- Inserting a record after an instruction only adds to the body. -/
theorem sublist_insertAfterVal : ∀ (body : List Instr) (v r : Nat),
    List.Sublist body (insertAfterVal body v r) := by
  intro body
  induction body with
  | nil => intro v r; simp [insertAfterVal]
  | cons i rest ih =>
    intro v r
    rw [insertAfterVal]
    by_cases hi : i = Instr.inst v
    · rw [if_pos hi]
      exact List.Sublist.cons₂ i (List.sublist_cons_self _ _)
    · rw [if_neg hi]
      exact List.Sublist.cons₂ i (ih v r)

/-- Unfolding `numDbg` over a cons cell. -/
theorem numDbg_cons (i : Instr) (body : List Instr) :
    numDbg (i :: body) = (if isDbgInstr i = true then 1 else 0) + numDbg body := by
  simp only [numDbg, List.filter_cons]
  cases h : isDbgInstr i <;> simp [h, Nat.add_comm]

/-- Inserting a record after an instruction present in the body adds exactly
one debug-value intrinsic. -/
theorem numDbg_insertAfterVal {v : Nat} :
    ∀ {body : List Instr} (r : Nat), Instr.inst v ∈ body →
      numDbg (insertAfterVal body v r) = numDbg body + 1 := by
  intro body
  induction body with
  | nil => intro r h; simp at h
  | cons i rest ih =>
    intro r h
    rw [insertAfterVal]
    by_cases hi : i = Instr.inst v
    · rw [if_pos hi]
      subst hi
      rw [numDbg_cons, numDbg_cons, numDbg_cons]
      simp [isDbgInstr]
      omega
    · rw [if_neg hi]
      have hmem : Instr.inst v ∈ rest := by
        rcases List.mem_cons.1 h with h' | h'
        · exact absurd h'.symm hi
        · exact h'
      rw [numDbg_cons, numDbg_cons, ih r hmem]
      omega

/-- After `insertAfterVal`, the record is the immediate successor of the
instruction it was inserted after. -/
theorem nextOf_insertAfterVal {v : Nat} :
    ∀ {body : List Instr} (r : Nat), Instr.inst v ∈ body →
      nextOf (insertAfterVal body v r) v = some (Instr.dbgVal r) := by
  intro body
  induction body with
  | nil => intro r h; simp at h
  | cons i rest ih =>
    intro r h
    rw [insertAfterVal]
    by_cases hi : i = Instr.inst v
    · rw [if_pos hi]
      rw [nextOf, if_pos hi]
      rfl
    · rw [if_neg hi]
      rw [nextOf, if_neg hi]
      have hmem : Instr.inst v ∈ rest := by
        rcases List.mem_cons.1 h with h' | h'
        · exact absurd h'.symm hi
        · exact h'
      exact ih r hmem

/-- Removing a debug-value intrinsic keeps every ordinary instruction. -/
theorem mem_removeDbg {v r : Nat} {body : List Instr} (h : Instr.inst v ∈ body) :
    Instr.inst v ∈ removeDbg body r :=
  List.mem_filter.2 ⟨h, by simp⟩

/-! ## Claim theorems: debug-value relocation -/

/-- C7: `MigrateDebugValue` leaves the record's source-variable descriptor,
expression and debug location untouched — the migrated record is exactly the
original with only its tracked-value operand replaced — and no other record
is modified at all.  (The only other state it touches are the metadata use
lists and the record's position in the instruction list.) -/
theorem C7_migrate_preserves_fields (S : IRState) (old new r : Nat) (rec : DbgRec)
    (hfind : findDbgValueInst S old = some r) (hrec : S.recs r = some rec) :
    (migrateDebugValue S old new).recs r = some { rec with tracked := new } ∧
    (∀ r', r' ≠ r → (migrateDebugValue S old new).recs r' = S.recs r') := by
  unfold migrateDebugValue
  rw [hfind]
  dsimp only
  rw [hrec]
  constructor
  · dsimp only
    split
    · split <;> simp
    · simp
  · intro r' hr'
    dsimp only
    split
    · split <;> simp [hr']
    · simp [hr']

/-- Concrete state for the C7 witness: value 5 carries record 0. -/
def SM : IRState where
  defs := fun _ => .nonInstr
  body := []
  recs := fun r => if r = 0 then some ⟨5, 7, .plain, 9⟩ else none
  metaUsers := fun v => if v = 5 then [0] else []
  elemBits := fun _ => 0
  nextRec := 1

/-- Witness for C7: migrating record 0 from value 5 to value 6 keeps the
variable, expression and location fields and leaves record 3 alone. -/
theorem C7_migrate_preserves_fields_witness :
    (migrateDebugValue SM 5 6).recs 0 = some ⟨6, 7, .plain, 9⟩ ∧
    (migrateDebugValue SM 5 6).recs 3 = SM.recs 3 :=
  ⟨(C7_migrate_preserves_fields SM 5 6 0 ⟨5, 7, .plain, 9⟩ rfl rfl).1,
   (C7_migrate_preserves_fields SM 5 6 0 ⟨5, 7, .plain, 9⟩ rfl rfl).2 3 (by decide)⟩

/-- C4 (amended): for an old value whose metadata wrapper has exactly one
debug-value user and a distinct new value, after `MigrateDebugValue` the
record's tracked-value operand is the new value, `FindDbgValueInst` on the
old value reports not-found, on the new value it reports the same record,
and when the new value is an instruction present in the body, the record is
its immediate successor in program order. -/
theorem C4_migrate_rebinds (S : IRState) (old new r : Nat) (rec : DbgRec)
    (hne : old ≠ new)
    (hu : S.metaUsers old = [r])
    (hrec : S.recs r = some rec) :
    ((migrateDebugValue S old new).recs r).map DbgRec.tracked = some new ∧
    findDbgValueInst (migrateDebugValue S old new) old = none ∧
    findDbgValueInst (migrateDebugValue S old new) new = some r ∧
    (isInstrKind (S.defs new) = true → Instr.inst new ∈ S.body →
      nextOf (migrateDebugValue S old new).body new = some (Instr.dbgVal r)) := by
  have hfind : findDbgValueInst S old = some r := by simp [findDbgValueInst, hu]
  unfold migrateDebugValue
  rw [hfind]
  dsimp only
  rw [hrec]
  dsimp only
  split
  case isTrue hinstr =>
    split
    case isTrue hnext =>
      refine ⟨by simp, ?_, ?_, fun _ _ => hnext⟩
      · simp [findDbgValueInst, hu, if_neg (Ne.symm hne), hne]
      · simp [findDbgValueInst]
    case isFalse hnext =>
      refine ⟨by simp, ?_, ?_, fun _ hmem => ?_⟩
      · simp [findDbgValueInst, hu, if_neg (Ne.symm hne), hne]
      · simp [findDbgValueInst]
      · exact nextOf_insertAfterVal r (mem_removeDbg hmem)
  case isFalse hinstr =>
    refine ⟨by simp, ?_, ?_, fun h _ => absurd h hinstr⟩
    · simp [findDbgValueInst, hu, if_neg (Ne.symm hne), hne]
    · simp [findDbgValueInst]

/-- Counterexample state for C4 with the new value equal to the old one:
value 5 carries record 0. -/
def S4a : IRState where
  defs := fun _ => .nonInstr
  body := []
  recs := fun r => if r = 0 then some ⟨5, 7, .plain, 9⟩ else none
  metaUsers := fun v => if v = 5 then [0] else []
  elemBits := fun _ => 0
  nextRec := 1

/-- Counterexample state for C4 with two records bound to value 5. -/
def S4b : IRState where
  defs := fun _ => .nonInstr
  body := []
  recs := fun r =>
    if r = 0 then some ⟨5, 7, .plain, 9⟩
    else if r = 1 then some ⟨5, 8, .plain, 9⟩ else none
  metaUsers := fun v => if v = 5 then [0, 1] else []
  elemBits := fun _ => 0
  nextRec := 2

/-- Counterexample for C4 as stated (quantifying over every old value with a
bound record and every new value): after `migrate(5, 5)` on `S4a` — a value
with a bound record and a (non-distinct) new value — `find(old)` still
reports the record, not not-found; and after `migrate(5, 6)` on `S4b`, where
the old value's wrapper had two debug-value users, `find(old)` reports the
second record, again not not-found. -/
theorem C4_migrate_counterexample :
    ¬ (findDbgValueInst (migrateDebugValue S4a 5 5) 5 = none) ∧
    ¬ (findDbgValueInst (migrateDebugValue S4b 5 6) 5 = none) := by decide

/-- Concrete state for the C4 witness: value 5 carries record 0, value 6 is
an instruction in the body. -/
def SMW : IRState where
  defs := fun v => if v = 6 then .otherInst else .nonInstr
  body := [.inst 6, .inst 8, .dbgVal 0]
  recs := fun r => if r = 0 then some ⟨5, 7, .plain, 9⟩ else none
  metaUsers := fun v => if v = 5 then [0] else []
  elemBits := fun _ => 0
  nextRec := 1

/-- Witness for the amended C4 at the concrete state `SMW`. -/
theorem C4_migrate_rebinds_witness :
    ((migrateDebugValue SMW 5 6).recs 0).map DbgRec.tracked = some 6 ∧
    findDbgValueInst (migrateDebugValue SMW 5 6) 5 = none ∧
    findDbgValueInst (migrateDebugValue SMW 5 6) 6 = some 0 ∧
    nextOf (migrateDebugValue SMW 5 6).body 6 = some (Instr.dbgVal 0) := by
  obtain ⟨h1, h2, h3, h4⟩ :=
    C4_migrate_rebinds SMW 5 6 0 ⟨5, 7, .plain, 9⟩ (by decide) rfl rfl
  exact ⟨h1, h2, h3, h4 rfl (by decide)⟩

/-! ## Claim theorems: scatter no-op cases -/

/-- C8: `TryScatterDebugValueToVectorElements` on a value that is not an
`insertelement` result, or on one with no bound debug-value record, returns
the state unchanged — `some S` is literally the input state, so no record is
created and the instruction graph is untouched. -/
theorem C8_scatter_noop (S : IRState) (v : Nat) :
    (isInsert (S.defs v) = false → tryScatter S v = some S) ∧
    (findDbgValueInst S v = none → tryScatter S v = some S) := by
  constructor
  · intro h
    unfold tryScatter
    cases hd : S.defs v with
    | insertElt a b c => rw [hd] at h; simp [isInsert] at h
    | otherInst => rfl
    | nonInstr => rfl
  · intro h
    unfold tryScatter
    cases hd : S.defs v with
    | insertElt a b c => rw [h]
    | otherInst => rfl
    | nonInstr => rfl

/-- Concrete state for the C8 witness: value 9 is not an insert. -/
def S8a : IRState where
  defs := fun _ => .nonInstr
  body := []
  recs := fun _ => none
  metaUsers := fun _ => []
  elemBits := fun _ => 0
  nextRec := 0

/-- Concrete state for the C8 witness: value 1 is an insert with no bound
debug-value record. -/
def S8b : IRState where
  defs := fun v => if v = 1 then .insertElt 0 10 0 else .nonInstr
  body := [.inst 1]
  recs := fun _ => none
  metaUsers := fun _ => []
  elemBits := fun _ => 32
  nextRec := 0

/-- Witness for C8 at the concrete states `S8a` and `S8b`. -/
theorem C8_scatter_noop_witness :
    tryScatter S8a 9 = some S8a ∧ tryScatter S8b 1 = some S8b :=
  ⟨(C8_scatter_noop S8a 9).1 rfl, (C8_scatter_noop S8b 1).2 rfl⟩

/-! ## The scatter loop over a vector-construction chain -/

/-- The scatter loop exits immediately on a non-insert value. -/
theorem scatterLoop_nonInsert (es dv lc : Nat) (par : Option (Nat × Nat))
    (fuel : Nat) (S : IRState) (v : Nat) (h : isInsert (S.defs v) = false) :
    scatterLoop es par dv lc fuel S v = some S := by
  cases fuel with
  | zero => rfl
  | succ f =>
    rw [scatterLoop]
    cases hd : S.defs v with
    | insertElt a b c => rw [hd] at h; simp [isInsert] at h
    | otherInst => rfl
    | nonInstr => rfl

/-- Full specification of the scatter loop over a construction chain whose
links all satisfy the nested-bit-piece assertion: the loop succeeds and, in
the result, one fresh record per link is created (the `k`-th link of the
chain, counted from the head, gets record id `nextRec + k`, tracks that
link's element and carries the bit piece at that link's index offset,
composed with the parent offset), pre-existing records are untouched, the
body only grows — by exactly one debug-value intrinsic per link — `defs` and
`elemBits` are untouched, and the metadata use lists of all values other
than the inserted elements are untouched. -/
theorem scatterLoop_spec (es dv lc : Nat) (par : Option (Nat × Nat)) (base : Nat) :
    ∀ (ls : List Link) (S : IRState) (v : Nat) (fuel : Nat),
      isChain S.defs v ls base →
      (∀ l ∈ ls, Instr.inst l.res ∈ S.body) →
      ls.length ≤ fuel →
      assertOk es par ls →
      ∃ S', scatterLoop es par dv lc fuel S v = some S' ∧
        S'.defs = S.defs ∧
        S'.elemBits = S.elemBits ∧
        S'.nextRec = S.nextRec + ls.length ∧
        (∀ r', r' < S.nextRec → S'.recs r' = S.recs r') ∧
        (∀ k, ∀ hk : k < ls.length, S'.recs (S.nextRec + k) =
            some ⟨(ls.get ⟨k, hk⟩).elt, dv,
                  DIExpr.bitPiece (pieceOff par (offsetOfIdx es (ls.get ⟨k, hk⟩).idx)) es, lc⟩) ∧
        List.Sublist S.body S'.body ∧
        numDbg S'.body = numDbg S.body + ls.length ∧
        (∀ w, w ∉ ls.map Link.elt → S'.metaUsers w = S.metaUsers w) := by
  intro ls
  induction ls with
  | nil =>
    intro S v fuel hchain _ _ _
    obtain ⟨hv, hni⟩ := hchain
    exact ⟨S, scatterLoop_nonInsert es dv lc par fuel S v hni, rfl, rfl, by simp, fun _ _ => rfl,
      fun k hk => absurd hk (by simp), List.Sublist.refl _, by simp, fun _ _ => rfl⟩
  | cons l ls' ih =>
    intro S v fuel hchain hmem hlen hok
    obtain ⟨hres, hdef, hchain'⟩ := hchain
    cases fuel with
    | zero => simp at hlen
    | succ f =>
      set S1 : IRState := addRecord S v l.elt (pieceOff par (offsetOfIdx es l.idx)) es dv lc
        with hS1
      have hstep : scatterLoop es par dv lc (f + 1) S v =
          scatterLoop es par dv lc f S1 (chainPred ls' base) := by
        rw [scatterLoop, hdef]
        cases par with
        | none => rfl
        | some p =>
          obtain ⟨poff, psz⟩ := p
          have hle : u32 (u32 (u32 l.idx * es) + es) ≤ psz := hok l (by simp)
          dsimp only
          rw [if_pos hle]
          rfl
      have hmemv : Instr.inst v ∈ S.body := by
        have := hmem l (by simp)
        rwa [hres] at this
      obtain ⟨S', hrun, hdefs, hbits, hnext, hframe, hidx, hsub, hcount, husers⟩ :=
        ih S1 (chainPred ls' base) f hchain'
          (fun l' hl' => (sublist_insertAfterVal S.body v S.nextRec).subset
            (hmem l' (List.mem_cons_of_mem _ hl')))
          (by simp at hlen; omega)
          (fun l' hl' => hok l' (List.mem_cons_of_mem _ hl'))
      have hn1 : S1.nextRec = S.nextRec + 1 := rfl
      refine ⟨S', hstep.trans hrun, hdefs, hbits, ?_, ?_, ?_, ?_, ?_, ?_⟩
      · rw [hnext, hn1]
        simp
        omega
      · intro r' hr'
        rw [hframe r' (by omega)]
        show (if r' = S.nextRec then _ else S.recs r') = S.recs r'
        rw [if_neg (by omega)]
      · intro k hk
        cases k with
        | zero =>
          simp only [Nat.add_zero]
          rw [hframe S.nextRec (by omega)]
          show (if S.nextRec = S.nextRec then _ else _) = _
          rw [if_pos rfl]
          rfl
        | succ k' =>
          have hk' : k' < ls'.length := by simp at hk; omega
          have := hidx k' hk'
          rw [hn1] at this
          have harith : S.nextRec + 1 + k' = S.nextRec + (k' + 1) := by omega
          rw [harith] at this
          exact this
      · exact (sublist_insertAfterVal S.body v S.nextRec).trans hsub
      · rw [hcount]
        have : numDbg S1.body = numDbg S.body + 1 := numDbg_insertAfterVal S.nextRec hmemv
        rw [this]
        simp
        omega
      · intro w hw
        have hw1 : w ≠ l.elt := by simp at hw; exact fun h => absurd h (by tauto)
        have hw2 : w ∉ ls'.map Link.elt := by simp at hw ⊢; tauto
        rw [husers w hw2]
        show (if w = l.elt then _ else S.metaUsers w) = S.metaUsers w
        rw [if_neg hw1]

/-- When the value carries a record, `TryScatterDebugValueToVectorElements`
is the scatter loop at that record's parameters (and when it does not head a
chain, both sides are the unchanged state). -/
theorem tryScatter_eq_loop (S : IRState) (head r : Nat) (rec : DbgRec)
    (hfind : findDbgValueInst S head = some r)
    (hrec : S.recs r = some rec) :
    tryScatter S head =
      scatterLoop (u32 (S.elemBits head)) (parentOf rec.expr) rec.dvar rec.loc
        S.body.length S head := by
  cases hd : S.defs head with
  | insertElt a b c =>
    unfold tryScatter
    rw [hd]
    dsimp only
    rw [hfind]
    dsimp only
    rw [hrec]
  | otherInst =>
    rw [scatterLoop_nonInsert _ _ _ _ _ _ _ (by rw [hd]; rfl)]
    unfold tryScatter
    rw [hd]
  | nonInstr =>
    rw [scatterLoop_nonInsert _ _ _ _ _ _ _ (by rw [hd]; rfl)]
    unfold tryScatter
    rw [hd]

/-! ## Claim theorems: scattering -/

/-- Concrete state for C1: a 3-element vector of 32-bit elements built by
inserts `1 = insert undef, 10 @ 0`, `2 = insert 1, 11 @ 1`,
`3 = insert 2, 12 @ 2`, with one whole-vector debug-value record (id 0,
variable 7, no bit-piece expression, location 5) bound to the final
insertion, placed after it. -/
def S0 : IRState where
  defs := fun v =>
    if v = 1 then .insertElt 0 10 0
    else if v = 2 then .insertElt 1 11 1
    else if v = 3 then .insertElt 2 12 2
    else .nonInstr
  body := [.inst 1, .inst 2, .inst 3, .dbgVal 0]
  recs := fun r => if r = 0 then some ⟨3, 7, .plain, 5⟩ else none
  metaUsers := fun v => if v = 3 then [0] else []
  elemBits := fun v => if v = 3 then 32 else 0
  nextRec := 1

/-- The chain of `S0` (and `S5`) as a link list, head first. -/
def ls0 : List Link := [⟨3, 12, 2⟩, ⟨2, 11, 1⟩, ⟨1, 10, 0⟩]

/-- C1: scattering the whole-vector record of `S0` creates exactly the three
records 1, 2, 3 (ids 1–3 are new, `nextRec` moves from 1 to 4, and id 4 is
still unused) carrying bit pieces `(64,32)`, `(32,32)`, `(0,32)` for the
elements inserted at indices 2, 1, 0 respectively — i.e. pieces `(0,32)`,
`(32,32)`, `(64,32)` in insertion-index order — each placed immediately
after its corresponding insert instruction (see the body listing), while the
original whole-vector record 0 keeps its contents and stays in the body. -/
theorem C1_scatter_three_elements :
    (tryScatter S0 3).map IRState.body =
      some [Instr.inst 1, Instr.dbgVal 3, Instr.inst 2, Instr.dbgVal 2,
            Instr.inst 3, Instr.dbgVal 1, Instr.dbgVal 0] ∧
    (tryScatter S0 3).bind (fun s => s.recs 3) = some ⟨10, 7, DIExpr.bitPiece 0 32, 5⟩ ∧
    (tryScatter S0 3).bind (fun s => s.recs 2) = some ⟨11, 7, DIExpr.bitPiece 32 32, 5⟩ ∧
    (tryScatter S0 3).bind (fun s => s.recs 1) = some ⟨12, 7, DIExpr.bitPiece 64 32, 5⟩ ∧
    (tryScatter S0 3).bind (fun s => s.recs 0) = S0.recs 0 ∧
    (tryScatter S0 3).map IRState.nextRec = some 4 ∧
    (tryScatter S0 3).bind (fun s => s.recs 4) = none := by decide

/-- C3: scattering is not idempotent.  On any state whose value `head` heads
a construction chain of `ls.length` insertions and carries a (bit-piece-free)
whole-vector record, one run of `TryScatterDebugValueToVectorElements` adds
exactly `ls.length` debug-value intrinsics to the body, and a second run on
the same chain adds the same number again — the whole-vector record is still
bound to `head` after the first run, so the second run scatters a second
full set of per-element records. -/
theorem C3_scatter_not_idempotent (S : IRState) (head base r : Nat) (rec : DbgRec)
    (ls : List Link)
    (hchain : isChain S.defs head ls base)
    (hmem : ∀ l ∈ ls, Instr.inst l.res ∈ S.body)
    (hlen : ls.length ≤ S.body.length)
    (hfind : findDbgValueInst S head = some r)
    (hrec : S.recs r = some rec)
    (hpar : parentOf rec.expr = none)
    (hfresh : r < S.nextRec)
    (hhead : head ∉ ls.map Link.elt) :
    (tryScatter S head).map (fun s => numDbg s.body) = some (numDbg S.body + ls.length) ∧
    ((tryScatter S head).bind (fun s => tryScatter s head)).map (fun s => numDbg s.body) =
      some (numDbg S.body + 2 * ls.length) := by
  have hok : assertOk (u32 (S.elemBits head)) (parentOf rec.expr) ls := by
    rw [hpar]
    exact fun l _ => trivial
  obtain ⟨S1, hrun1, hdefs1, hbits1, hnext1, hframe1, hidx1, hsub1, hcount1, husers1⟩ :=
    scatterLoop_spec (u32 (S.elemBits head)) rec.dvar rec.loc (parentOf rec.expr) base ls S head
      S.body.length hchain hmem hlen hok
  have heq1 : tryScatter S head = some S1 :=
    (tryScatter_eq_loop S head r rec hfind hrec).trans hrun1
  have hfind2 : findDbgValueInst S1 head = some r := by
    rw [findDbgValueInst, husers1 head hhead]
    exact hfind
  have hrec2 : S1.recs r = some rec := by
    rw [hframe1 r hfresh]
    exact hrec
  have hchain2 : isChain S1.defs head ls base := by
    rw [hdefs1]
    exact hchain
  have hmem2 : ∀ l ∈ ls, Instr.inst l.res ∈ S1.body := fun l hl => hsub1.subset (hmem l hl)
  have hlen2 : ls.length ≤ S1.body.length := le_trans hlen hsub1.length_le
  have hok2 : assertOk (u32 (S1.elemBits head)) (parentOf rec.expr) ls := by
    rw [hbits1]
    exact hok
  obtain ⟨S2, hrun2, _, _, _, _, _, _, hcount2, _⟩ :=
    scatterLoop_spec (u32 (S1.elemBits head)) rec.dvar rec.loc (parentOf rec.expr) base ls S1 head
      S1.body.length hchain2 hmem2 hlen2 hok2
  have heq2 : tryScatter S1 head = some S2 :=
    (tryScatter_eq_loop S1 head r rec hfind2 hrec2).trans hrun2
  rw [heq1]
  constructor
  · show some (numDbg S1.body) = some (numDbg S.body + ls.length)
    rw [hcount1]
  · show (tryScatter S1 head).map (fun s => numDbg s.body) = some (numDbg S.body + 2 * ls.length)
    rw [heq2]
    show some (numDbg S2.body) = some (numDbg S.body + 2 * ls.length)
    rw [hcount2, hcount1]
    exact congrArg some (by omega)

/-- Witness for C3 at the concrete state `S0`: the body starts with one
debug-value intrinsic; one scatter yields 4, a second scatter yields 7. -/
theorem C3_scatter_not_idempotent_witness :
    (tryScatter S0 3).map (fun s => numDbg s.body) = some 4 ∧
    ((tryScatter S0 3).bind (fun s => tryScatter s 3)).map (fun s => numDbg s.body) =
      some 7 :=
  C3_scatter_not_idempotent S0 3 0 0 ⟨3, 7, .plain, 5⟩ ls0
    ⟨rfl, rfl, rfl, rfl, rfl, rfl, rfl, rfl⟩ (by decide) (by decide) rfl rfl rfl
    (by decide) (by decide)

/-- Helper: truncation never increases a natural number. -/
theorem u32_le (n : Nat) : u32 n ≤ n := Nat.mod_le n 4294967296

/-- Helper: the wrapped assertion operand is bounded by the exact-arithmetic
nested-piece bound, so the claim's precondition implies the assertion's
condition. -/
theorem assertOperand_le (es idx psz : Nat) (h : idx * es + es ≤ psz) :
    u32 (offsetOfIdx es idx + es) ≤ psz := by
  have h1 : offsetOfIdx es idx ≤ idx * es :=
    le_trans (u32_le _) (Nat.mul_le_mul_right es (u32_le idx))
  exact le_trans (u32_le _) (le_trans (Nat.add_le_add_right h1 es) h)

/-- C5 (amended): per-element offsets and assertion safety, in the 32-bit
`unsigned` arithmetic the source performs.  On a chain whose whole-vector
record carries a parent bit piece `(poff, psz)`, under the claim's
precondition that every link satisfies `idx * elemBits + elemBits ≤ psz`
(exact arithmetic — this implies the wrapped operand of the assertion is in
bounds, since truncation never increases a value), the scatter succeeds (the
result is `some` — the bounds assertion cannot fire), and the `k`-th link's
new record carries the bit piece whose offset is the element offset
`idx * elemBits` composed with the parent's base offset, each step truncated
to 32 bits exactly as the `unsigned` locals wrap:
`u32 (u32 (u32 idx * elemBits) + poff)`. -/
theorem C5_scatter_offsets_mod32 (S : IRState) (head base r poff psz : Nat) (rec : DbgRec)
    (ls : List Link)
    (hchain : isChain S.defs head ls base)
    (hmem : ∀ l ∈ ls, Instr.inst l.res ∈ S.body)
    (hlen : ls.length ≤ S.body.length)
    (hfind : findDbgValueInst S head = some r)
    (hrec : S.recs r = some rec)
    (hpar : parentOf rec.expr = some (poff, psz))
    (hok : ∀ l ∈ ls, l.idx * u32 (S.elemBits head) + u32 (S.elemBits head) ≤ psz) :
    (tryScatter S head).isSome = true ∧
    (∀ k, ∀ hk : k < ls.length,
      (tryScatter S head).bind (fun s => s.recs (S.nextRec + k)) =
        some ⟨(ls.get ⟨k, hk⟩).elt, rec.dvar,
              DIExpr.bitPiece
                (u32 (u32 (u32 (ls.get ⟨k, hk⟩).idx * u32 (S.elemBits head)) + poff))
                (u32 (S.elemBits head)), rec.loc⟩) := by
  have hok' : assertOk (u32 (S.elemBits head)) (parentOf rec.expr) ls := by
    rw [hpar]
    exact fun l hl => assertOperand_le _ _ _ (hok l hl)
  obtain ⟨S', hrun, _, _, _, _, hidx, _, _, _⟩ :=
    scatterLoop_spec (u32 (S.elemBits head)) rec.dvar rec.loc (parentOf rec.expr) base ls S
      head S.body.length hchain hmem hlen hok'
  have heq : tryScatter S head = some S' :=
    (tryScatter_eq_loop S head r rec hfind hrec).trans hrun
  rw [heq]
  refine ⟨rfl, fun k hk => ?_⟩
  show S'.recs (S.nextRec + k) = _
  rw [hidx k hk, hpar]
  rfl

/-- Counterexample state for C5 as stated: a single insert at index
`2^27 = 134217728` of a 32-bit element, whose whole-vector record carries the
parent bit piece `(8, 2^33)`.  The exact-arithmetic offset
`2^27 * 32 + 8 = 2^32 + 8` does not fit the `unsigned` local: the source
stores `u32 (u32 (2^27 * 32) + 8) = 8`. -/
def SW : IRState where
  defs := fun v => if v = 1 then .insertElt 0 10 134217728 else .nonInstr
  body := [.inst 1, .dbgVal 0]
  recs := fun r => if r = 0 then some ⟨1, 7, .bitPiece 8 8589934592, 5⟩ else none
  metaUsers := fun v => if v = 1 then [0] else []
  elemBits := fun v => if v = 1 then 32 else 0
  nextRec := 1

/-- Counterexample for C5 as stated: at `SW` the claim's precondition holds
(`2^27 * 32 + 32 = 4294967328 ≤ 2^33 = 8589934592`), the assertion does not
fire, but the new record's offset is the wrapped `8`, not the claim's
`element_offset_bits + parent offset = 2^27 * 32 + 8 = 4294967304`. -/
theorem C5_offsets_counterexample :
    134217728 * 32 + 32 ≤ 8589934592 ∧
    (tryScatter SW 1).bind (fun s => s.recs 1) = some ⟨10, 7, DIExpr.bitPiece 8 32, 5⟩ ∧
    ¬ ((tryScatter SW 1).bind (fun s => s.recs 1) =
        some ⟨10, 7, DIExpr.bitPiece 4294967304 32, 5⟩) := by decide

/-- Concrete state for the C5 witness: the same chain as `S0`, but the
whole-vector record already carries the parent bit piece `(8, 104)`. -/
def S5 : IRState where
  defs := fun v =>
    if v = 1 then .insertElt 0 10 0
    else if v = 2 then .insertElt 1 11 1
    else if v = 3 then .insertElt 2 12 2
    else .nonInstr
  body := [.inst 1, .inst 2, .inst 3, .dbgVal 0]
  recs := fun r => if r = 0 then some ⟨3, 7, .bitPiece 8 104, 5⟩ else none
  metaUsers := fun v => if v = 3 then [0] else []
  elemBits := fun v => if v = 3 then 32 else 0
  nextRec := 1

/-- Witness for the amended C5 at the concrete state `S5`: the scatter
succeeds and the new records carry offsets `2*32+8 = 72`, `1*32+8 = 40`,
`0*32+8 = 8` (all far below `2^32`, so the wrapped and exact values
coincide). -/
theorem C5_scatter_offsets_mod32_witness :
    (tryScatter S5 3).isSome = true ∧
    (tryScatter S5 3).bind (fun s => s.recs (S5.nextRec + 0)) =
      some ⟨12, 7, DIExpr.bitPiece 72 32, 5⟩ ∧
    (tryScatter S5 3).bind (fun s => s.recs (S5.nextRec + 1)) =
      some ⟨11, 7, DIExpr.bitPiece 40 32, 5⟩ ∧
    (tryScatter S5 3).bind (fun s => s.recs (S5.nextRec + 2)) =
      some ⟨10, 7, DIExpr.bitPiece 8 32, 5⟩ := by
  obtain ⟨h1, h2⟩ := C5_scatter_offsets_mod32 S5 3 0 0 8 104 ⟨3, 7, .bitPiece 8 104, 5⟩ ls0
    ⟨rfl, rfl, rfl, rfl, rfl, rfl, rfl, rfl⟩ (by decide) (by decide) rfl rfl rfl (by decide)
  exact ⟨h1, h2 0 (by decide), h2 1 (by decide), h2 2 (by decide)⟩

end DxilDbg
